import Mathlib

/-!
Shallow embedding of the library-management domain model of
`src/learning_OOPS.py` (classes `Book`, `Member`, `StudentMember`,
`FacultyMember`, `Library`).

Python objects are shared by reference (a `Member.borrowed_books` entry is
the very same object as an entry of `Library.books`, and a merged library
shares `Book`/`Member` instances with its sources), so the embedding uses an
explicit object store: a `World` holds a heap of `Book` records and a heap of
`Member` records, and a `Library` holds `Nat` references into those heaps.
Mutation of a Python attribute becomes an update of the heap cell, visible
through every reference to it.
-/

namespace LibMS

/-- Role tag for the `Member` class hierarchy: the base class `Member`,
and the overriding subclasses `StudentMember` and `FacultyMember`. -/
inductive Role where
  | base
  | student
  | faculty
deriving DecidableEq, Repr

/-- `Book.__init__(title, author, book_id)`; `is_available` starts `True`. -/
structure Book where
  title : String
  author : String
  book_id : Int
  is_available : Bool
deriving DecidableEq, Repr

/-- `Member.__init__(name, member_id)` plus the role tag of the concrete
class; `borrowed_books` holds references into the world's book heap. -/
structure Member where
  name : String
  member_id : Int
  role : Role
  borrowed_books : List Nat
deriving DecidableEq, Repr

/-- `Library.__init__(name)`: `books` and `members` are lists of references
into the world's heaps (Python lists of object references). -/
structure Library where
  name : String
  books : List Nat
  members : List Nat
deriving DecidableEq, Repr

/-- The whole object store: every `Book` and `Member` object ever created,
plus every `Library`. References are indices into these lists. -/
structure World where
  heap : List Book
  mems : List Member
  libs : List Library
deriving DecidableEq, Repr

def dummyBook : Book := ⟨"", "", 0, true⟩

def dummyMember : Member := ⟨"", 0, Role.base, []⟩

def dummyLibrary : Library := ⟨"", [], []⟩

def World.bookAt (w : World) (r : Nat) : Book := w.heap.getD r dummyBook

def World.memAt (w : World) (r : Nat) : Member := w.mems.getD r dummyMember

def World.libAt (w : World) (L : Nat) : Library := w.libs.getD L dummyLibrary

def World.setBookAt (w : World) (r : Nat) (b : Book) : World :=
  { w with heap := w.heap.set r b }

def World.setMemAt (w : World) (r : Nat) (m : Member) : World :=
  { w with mems := w.mems.set r m }

def World.setLibAt (w : World) (L : Nat) (l : Library) : World :=
  { w with libs := w.libs.set L l }

/-- `StudentMember.MAX_BORROW = 3`. -/
def studentMaxBorrow : Nat := 3

/-- `FacultyMember.MAX_BORROW = 10`. -/
def facultyMaxBorrow : Nat := 10

/-- The borrow cap the overridden `borrow_book` checks: the base class
checks none, students 3, faculty 10. -/
def roleLimit : Role → Option Nat
  | Role.base => none
  | Role.student => some studentMaxBorrow
  | Role.faculty => some facultyMaxBorrow

/-- The world after the successful branch of any `borrow_book` override:
`book.is_available = False` then `self.borrowed_books.append(book)`. -/
def borrowedWorld (w : World) (mRef bRef : Nat) : World :=
  (w.setBookAt bRef { w.bookAt bRef with is_available := false }).setMemAt mRef
    { w.memAt mRef with borrowed_books := (w.memAt mRef).borrowed_books ++ [bRef] }

/-- Shared shape of the three `borrow_book` bodies: `StudentMember` and
`FacultyMember` first test `len(self.borrowed_books) >= MAX_BORROW`, then
`not book.is_available`; the base `Member` tests only availability. -/
def memberBorrowAux (w : World) (mRef bRef : Nat) : Option Nat → World × Bool
  | some cap =>
      if cap ≤ (w.memAt mRef).borrowed_books.length then (w, false)
      else if !(w.bookAt bRef).is_available then (w, false)
      else (borrowedWorld w mRef bRef, true)
  | none =>
      if (w.bookAt bRef).is_available then (borrowedWorld w mRef bRef, true)
      else (w, false)

/-- `member.borrow_book(book)` with dynamic dispatch on the member's class. -/
def memberBorrowBook (w : World) (mRef bRef : Nat) : World × Bool :=
  memberBorrowAux w mRef bRef (roleLimit (w.memAt mRef).role)

/-- `Member.return_book(book_id)`: scan `borrowed_books` for the first book
whose id matches; set it available and `remove` it (Python `list.remove`
deletes the first occurrence of that object, here `List.erase`). -/
def memberReturnBook (w : World) (mRef : Nat) (book_id : Int) : World × Bool :=
  match (w.memAt mRef).borrowed_books.find? (fun r => (w.bookAt r).book_id == book_id) with
  | some r =>
      ((w.setBookAt r { w.bookAt r with is_available := true }).setMemAt mRef
        { w.memAt mRef with borrowed_books := (w.memAt mRef).borrowed_books.erase r }, true)
  | none => (w, false)

/-- `Library.add_book(Book(title, author, book_id))`: every call site of
`add_book` in the program passes a freshly constructed `Book`, so the
operation allocates a new heap cell (with `is_available = True`, as
`Book.__init__` sets) and appends its reference; no duplicate-id check. -/
def addBook (w : World) (L : Nat) (title author : String) (book_id : Int) : World :=
  let w1 : World := { w with heap := w.heap ++ [⟨title, author, book_id, true⟩] }
  w1.setLibAt L { w1.libAt L with books := (w1.libAt L).books ++ [w.heap.length] }

/-- `Library.add_member(...)`: call sites pass a freshly constructed
`StudentMember`/`FacultyMember` (empty `borrowed_books`); no duplicate-id
check. -/
def addMember (w : World) (L : Nat) (name : String) (member_id : Int) (role : Role) : World :=
  let w1 : World := { w with mems := w.mems ++ [⟨name, member_id, role, []⟩] }
  w1.setLibAt L { w1.libAt L with members := (w1.libAt L).members ++ [w.mems.length] }

/-- `Library.find_book(book_id)`: first book in `self.books` with that id. -/
def findBookRef (w : World) (L : Nat) (book_id : Int) : Option Nat :=
  (w.libAt L).books.find? (fun r => (w.bookAt r).book_id == book_id)

/-- `Library.get_member_by_id(member_id)`: first member with that id. -/
def getMemberRef (w : World) (L : Nat) (member_id : Int) : Option Nat :=
  (w.libAt L).members.find? (fun r => (w.memAt r).member_id == member_id)

/-- `Library.remove_book(book_id)`: the loop takes the first book satisfying
`b.get_book_id() == book_id and b.is_available` and removes that object from
`self.books`; otherwise returns `False`. -/
def removeBook (w : World) (L : Nat) (book_id : Int) : World × Bool :=
  match (w.libAt L).books.find?
      (fun r => (w.bookAt r).book_id == book_id && (w.bookAt r).is_available) with
  | some r => (w.setLibAt L { w.libAt L with books := (w.libAt L).books.erase r }, true)
  | none => (w, false)

/-- `Library.borrow(member_id, book_id)`: resolve the member, then the book;
fail on a missing one, otherwise delegate to `member.borrow_book(book)`. -/
def libBorrow (w : World) (L : Nat) (member_id book_id : Int) : World × Bool :=
  match getMemberRef w L member_id with
  | none => (w, false)
  | some mRef =>
      match findBookRef w L book_id with
      | none => (w, false)
      | some bRef => memberBorrowBook w mRef bRef

/-- `Library.return_book(member_id, book_id)`: resolve the member, fail if
absent, otherwise delegate to `member.return_book(book_id)`. -/
def libReturnBook (w : World) (L : Nat) (member_id book_id : Int) : World × Bool :=
  match getMemberRef w L member_id with
  | none => (w, false)
  | some mRef => memberReturnBook w mRef book_id

/-- The dedup loop of `Library.__add__`: walk the concatenated reference
list, keep a reference only when its key (book/member id) was not seen yet. -/
def dedupFirst (key : Nat → Int) : List Nat → List Int → List Nat
  | [], _ => []
  | r :: rest, seen =>
      if key r ∈ seen then dedupFirst key rest seen
      else r :: dedupFirst key rest (key r :: seen)

/-- `Library.__add__(self, other)`: a new library named
`"<self.name> & <other.name>"`, whose books are `self.books + other.books`
deduplicated by `book_id` (first occurrence kept) and whose members are
deduplicated by `member_id` likewise; the new library shares the heap
references of its sources and is appended to the world. -/
def mergeLibs (w : World) (a b : Nat) : World :=
  let merged : Library :=
    { name := (w.libAt a).name ++ " & " ++ (w.libAt b).name
      books := dedupFirst (fun r => (w.bookAt r).book_id)
        ((w.libAt a).books ++ (w.libAt b).books) []
      members := dedupFirst (fun r => (w.memAt r).member_id)
        ((w.libAt a).members ++ (w.libAt b).members) [] }
  { w with libs := w.libs ++ [merged] }

/-- The five catalog operations of the claims, applied to one catalog. -/
inductive CatOp where
  | addBook (title author : String) (book_id : Int)
  | addMember (name : String) (member_id : Int) (role : Role)
  | borrow (member_id book_id : Int)
  | returnBook (member_id book_id : Int)
  | removeBook (book_id : Int)
deriving DecidableEq, Repr

/-- One catalog operation acting on library 0 (the freshly created catalog);
the boolean outcome is reported to the caller and does not affect state. -/
def applyOp (w : World) : CatOp → World
  | CatOp.addBook t a i => addBook w 0 t a i
  | CatOp.addMember n i ρ => addMember w 0 n i ρ
  | CatOp.borrow mid bid => (libBorrow w 0 mid bid).1
  | CatOp.returnBook mid bid => (libReturnBook w 0 mid bid).1
  | CatOp.removeBook bid => (removeBook w 0 bid).1

/-- A world holding exactly one freshly created catalog `Library(name)`. -/
def freshCatalog (name : String) : World :=
  ⟨[], [], [⟨name, [], []⟩]⟩

/-- The world reached from a fresh catalog by a sequence of operations. -/
def runOps (name : String) (ops : List CatOp) : World :=
  ops.foldl applyOp (freshCatalog name)

/-- Total multiplicity of book reference `r` across the borrowed lists of
library `L`'s members. -/
def holdCount (w : World) (L r : Nat) : Nat :=
  ((w.libAt L).members.map (fun mRef => (w.memAt mRef).borrowed_books.count r)).sum

/-- Number of members of library `L` whose borrowed list contains book
reference `r`. -/
def holdersCount (w : World) (L r : Nat) : Nat :=
  ((w.libAt L).members.filter (fun mRef => (w.memAt mRef).borrowed_books.contains r)).length

/-- Deduplication as the spec words it: keep the first occurrence of each
key, drop every later reference carrying an already-kept key. Stated
independently of the implementation's `seen`-set loop, for the refinement
proof about `Library.__add__`. -/
def specDedupFirst (key : Nat → Int) : List Nat → List Nat
  | [] => []
  | r :: rest => r :: specDedupFirst key (rest.filter (fun x => !(key x == key r)))
termination_by l => l.length
decreasing_by
  simp only [List.length_cons]
  exact Nat.lt_succ_of_le (List.length_filter_le _ _)

/-- The state invariant maintained by the five catalog operations on the
catalog at index 0: references are valid, the member list has no repeated
reference, a book is unavailable exactly when its total multiplicity across
borrowed lists is one (and available when it is zero), and every role's
borrow cap is respected. -/
structure Inv (w : World) : Prop where
  libsNE : 0 < w.libs.length
  booksValid : ∀ r ∈ (w.libAt 0).books, r < w.heap.length
  memsValid : ∀ mRef ∈ (w.libAt 0).members, mRef < w.mems.length
  memsNodup : (w.libAt 0).members.Nodup
  borValid : ∀ mRef ∈ (w.libAt 0).members, ∀ r ∈ (w.memAt mRef).borrowed_books,
    r < w.heap.length
  countInv : ∀ r < w.heap.length,
    holdCount w 0 r = (if (w.bookAt r).is_available then 0 else 1)
  capInv : ∀ mRef ∈ (w.libAt 0).members, ∀ cap,
    roleLimit (w.memAt mRef).role = some cap →
    (w.memAt mRef).borrowed_books.length ≤ cap

/-- Catalog with two books sharing id 5 (the first currently borrowed by
member 1, the second still available), reached by catalog operations. -/
def w4cex : World :=
  runOps "C" [CatOp.addBook "X" "xa" 5, CatOp.addBook "Y" "ya" 5,
    CatOp.addMember "m" 1 Role.student, CatOp.borrow 1 5]

/-- A world where member 0 already holds book 0 (id 5, borrowed) while book
1 carries the same id 5 and is still available on the shelf. -/
def w5cex : World :=
  ⟨[⟨"X", "xa", 5, false⟩, ⟨"Y", "ya", 5, true⟩],
   [⟨"m", 1, Role.student, [0]⟩],
   [⟨"C", [0, 1], [0]⟩]⟩

/-- A world with one available book and one student member with nothing
borrowed. -/
def wOne : World :=
  ⟨[⟨"T", "A", 101, true⟩], [⟨"Alice", 1, Role.student, []⟩], [⟨"C", [0], [0]⟩]⟩

/-- A world whose student member 0 is at the cap of 3 borrowed books. -/
def wAtCap : World :=
  ⟨[⟨"T1", "A", 1, false⟩, ⟨"T2", "A", 2, false⟩, ⟨"T3", "A", 3, false⟩,
    ⟨"T4", "A", 4, true⟩],
   [⟨"s", 1, Role.student, [0, 1, 2]⟩],
   [⟨"C", [0, 1, 2, 3], [0]⟩]⟩

/-- Two libraries for the merge scenario: library 0 holds books with ids
`[1, 2]`, library 1 holds books with ids `[2, 3]`. -/
def wMergeDemo : World :=
  ⟨[⟨"b1", "a1", 1, true⟩, ⟨"b2", "a2", 2, true⟩, ⟨"b2x", "a3", 2, true⟩,
    ⟨"b3", "a4", 3, true⟩],
   [],
   [⟨"A", [0, 1], []⟩, ⟨"B", [2, 3], []⟩]⟩

/-- A library whose own book list already repeats id 7, plus an empty
library to merge with. -/
def wDupDemo : World :=
  ⟨[⟨"X", "xa", 7, true⟩, ⟨"Y", "ya", 7, true⟩],
   [],
   [⟨"A", [0, 1], []⟩, ⟨"B", [], []⟩]⟩

theorem getD_append_lt {α : Type _} (l l' : List α) (n : Nat) (h : n < l.length) (d : α) :
    (l ++ l').getD n d = l.getD n d := by
  induction l generalizing n with
  | nil => simp at h
  | cons a t ih =>
    cases n with
    | zero => rfl
    | succ m => simpa using ih m (by simpa using h)

theorem getD_concat_length {α : Type _} (l : List α) (x d : α) :
    (l ++ [x]).getD l.length d = x := by
  induction l with
  | nil => rfl
  | cons a t ih => simp only [List.cons_append, List.length_cons, List.getD_cons_succ, ih]

theorem getD_set_eq {α : Type _} (l : List α) (n : Nat) (x d : α) (h : n < l.length) :
    (l.set n x).getD n d = x := by
  induction l generalizing n with
  | nil => simp at h
  | cons a t ih =>
    cases n with
    | zero => rfl
    | succ m => simpa using ih m (by simpa using h)

theorem getD_set_ne {α : Type _} (l : List α) (n m : Nat) (x d : α) (h : m ≠ n) :
    (l.set n x).getD m d = l.getD m d := by
  induction l generalizing n m with
  | nil => rfl
  | cons a t ih =>
    cases n with
    | zero =>
      cases m with
      | zero => exact absurd rfl h
      | succ k => rfl
    | succ j =>
      cases m with
      | zero => rfl
      | succ k => simpa using ih j k (by omega)

theorem set_getD_self {α : Type _} (l : List α) (n : Nat) (d : α) :
    l.set n (l.getD n d) = l := by
  induction l generalizing n with
  | nil => rfl
  | cons a t ih =>
    cases n with
    | zero => rfl
    | succ m => simpa using ih m

theorem worldEq_of_components {u v : World} (h1 : u.heap = v.heap)
    (h2 : u.mems = v.mems) (h3 : u.libs = v.libs) : u = v := by
  cases u
  cases v
  cases h1
  cases h2
  cases h3
  rfl

theorem bookAt_setBookAt_eq (w : World) (r : Nat) (b : Book) (h : r < w.heap.length) :
    (w.setBookAt r b).bookAt r = b :=
  getD_set_eq w.heap r b dummyBook h

theorem bookAt_setBookAt_ne (w : World) (r x : Nat) (b : Book) (h : x ≠ r) :
    (w.setBookAt r b).bookAt x = w.bookAt x :=
  getD_set_ne w.heap r x b dummyBook h

theorem memAt_setMemAt_eq (w : World) (m : Nat) (v : Member) (h : m < w.mems.length) :
    (w.setMemAt m v).memAt m = v :=
  getD_set_eq w.mems m v dummyMember h

theorem memAt_setMemAt_ne (w : World) (m x : Nat) (v : Member) (h : x ≠ m) :
    (w.setMemAt m v).memAt x = w.memAt x :=
  getD_set_ne w.mems m x v dummyMember h

theorem libAt_setLibAt_eq (w : World) (L : Nat) (v : Library) (h : L < w.libs.length) :
    (w.setLibAt L v).libAt L = v :=
  getD_set_eq w.libs L v dummyLibrary h

theorem sum_counts_eq_zero {l : List Nat} {f : Nat → Nat} (h : ∀ x ∈ l, f x = 0) :
    (l.map f).sum = 0 :=
  List.sum_eq_zero_iff.mpr (by simpa using h)

theorem counts_eq_zero_of_sum {l : List Nat} {f : Nat → Nat}
    (h : (l.map f).sum = 0) : ∀ x ∈ l, f x = 0 := by
  intro x hx
  exact List.sum_eq_zero_iff.mp h (f x) (List.mem_map_of_mem f hx)

theorem sum_counts_mem_decomp {l : List Nat} (f : Nat → Nat) {a : Nat}
    (ha : a ∈ l) :
    (l.map f).sum = f a + ((l.erase a).map f).sum := by
  have hperm : List.Perm l (a :: l.erase a) := List.perm_cons_erase ha
  calc (l.map f).sum = ((a :: l.erase a).map f).sum :=
        List.Perm.sum_eq (List.Perm.map f hperm)
    _ = f a + ((l.erase a).map f).sum := by simp

theorem ne_of_mem_erase_nodup {l : List Nat} {a x : Nat} (hnd : l.Nodup)
    (hx : x ∈ l.erase a) : x ≠ a := by
  intro h
  exact hnd.not_mem_erase (h ▸ hx)

theorem addBook_heap (w : World) (L : Nat) (t a : String) (i : Int) :
    (addBook w L t a i).heap = w.heap ++ [⟨t, a, i, true⟩] := rfl

theorem addBook_mems (w : World) (L : Nat) (t a : String) (i : Int) :
    (addBook w L t a i).mems = w.mems := rfl

theorem addBook_libs (w : World) (L : Nat) (t a : String) (i : Int) :
    (addBook w L t a i).libs =
      w.libs.set L { w.libAt L with books := (w.libAt L).books ++ [w.heap.length] } := rfl

theorem addMember_heap (w : World) (L : Nat) (n : String) (i : Int) (ρ : Role) :
    (addMember w L n i ρ).heap = w.heap := rfl

theorem addMember_mems (w : World) (L : Nat) (n : String) (i : Int) (ρ : Role) :
    (addMember w L n i ρ).mems = w.mems ++ [⟨n, i, ρ, []⟩] := rfl

theorem addMember_libs (w : World) (L : Nat) (n : String) (i : Int) (ρ : Role) :
    (addMember w L n i ρ).libs =
      w.libs.set L { w.libAt L with members := (w.libAt L).members ++ [w.mems.length] } := rfl

theorem borrowedWorld_heap (w : World) (mRef bRef : Nat) :
    (borrowedWorld w mRef bRef).heap =
      w.heap.set bRef { w.bookAt bRef with is_available := false } := rfl

theorem borrowedWorld_mems (w : World) (mRef bRef : Nat) :
    (borrowedWorld w mRef bRef).mems =
      w.mems.set mRef
        { w.memAt mRef with
            borrowed_books := (w.memAt mRef).borrowed_books ++ [bRef] } := rfl

theorem borrowedWorld_libs (w : World) (mRef bRef : Nat) :
    (borrowedWorld w mRef bRef).libs = w.libs := rfl

theorem memberBorrowAux_spec (w : World) (mRef bRef : Nat) (lim : Option Nat) :
    memberBorrowAux w mRef bRef lim = (w, false) ∨
      ((w.bookAt bRef).is_available = true ∧
        (∀ cap, lim = some cap → (w.memAt mRef).borrowed_books.length < cap) ∧
        memberBorrowAux w mRef bRef lim = (borrowedWorld w mRef bRef, true)) := by
  cases lim with
  | none =>
    by_cases h : (w.bookAt bRef).is_available
    · refine Or.inr ⟨h, ?_, by simp [memberBorrowAux, h]⟩
      intro cap hc
      cases hc
    · exact Or.inl (by simp [memberBorrowAux, h])
  | some cap =>
    by_cases h1 : cap ≤ (w.memAt mRef).borrowed_books.length
    · exact Or.inl (by simp [memberBorrowAux, h1])
    · by_cases h2 : (w.bookAt bRef).is_available
      · refine Or.inr ⟨h2, ?_, by simp [memberBorrowAux, h1, h2]⟩
        intro c hc
        injection hc with hc
        omega
      · exact Or.inl (by simp [memberBorrowAux, h1, h2])

theorem memberBorrowBook_spec (w : World) (mRef bRef : Nat) :
    memberBorrowBook w mRef bRef = (w, false) ∨
      ((w.bookAt bRef).is_available = true ∧
        (∀ cap, roleLimit (w.memAt mRef).role = some cap →
          (w.memAt mRef).borrowed_books.length < cap) ∧
        memberBorrowBook w mRef bRef = (borrowedWorld w mRef bRef, true)) :=
  memberBorrowAux_spec w mRef bRef (roleLimit (w.memAt mRef).role)

theorem memberReturnBook_spec (w : World) (mRef : Nat) (bid : Int) :
    ((w.memAt mRef).borrowed_books.find? (fun r => (w.bookAt r).book_id == bid) = none ∧
      memberReturnBook w mRef bid = (w, false)) ∨
      (∃ r, (w.memAt mRef).borrowed_books.find? (fun r => (w.bookAt r).book_id == bid) =
          some r ∧
        memberReturnBook w mRef bid =
          ((w.setBookAt r { w.bookAt r with is_available := true }).setMemAt mRef
            { w.memAt mRef with
                borrowed_books := (w.memAt mRef).borrowed_books.erase r }, true)) := by
  cases hf : (w.memAt mRef).borrowed_books.find? (fun r => (w.bookAt r).book_id == bid) with
  | none => exact Or.inl ⟨rfl, by simp [memberReturnBook, hf]⟩
  | some r => exact Or.inr ⟨r, rfl, by simp [memberReturnBook, hf]⟩

theorem holdCount_congr {w w' : World}
    (hms : (w'.libAt 0).members = (w.libAt 0).members)
    (hbb : ∀ x ∈ (w.libAt 0).members,
      (w'.memAt x).borrowed_books = (w.memAt x).borrowed_books) (r : Nat) :
    holdCount w' 0 r = holdCount w 0 r := by
  unfold holdCount
  rw [hms]
  congr 1
  exact List.map_congr_left (fun x hx => by rw [hbb x hx])

theorem inv_addBook (w : World) (t a : String) (i : Int) (hw : Inv w) :
    Inv (addBook w 0 t a i) := by
  have hlib : (addBook w 0 t a i).libAt 0 =
      { w.libAt 0 with books := (w.libAt 0).books ++ [w.heap.length] } := by
    simp only [World.libAt, addBook_libs]
    exact getD_set_eq _ _ _ _ hw.libsNE
  have hheaplen : (addBook w 0 t a i).heap.length = w.heap.length + 1 := by
    rw [addBook_heap]; simp
  have hmem : ∀ x : Nat, (addBook w 0 t a i).memAt x = w.memAt x := fun _ => rfl
  have hbook_old : ∀ r : Nat, r < w.heap.length →
      (addBook w 0 t a i).bookAt r = w.bookAt r := by
    intro r hr
    simp only [World.bookAt, addBook_heap]
    exact getD_append_lt _ _ _ hr _
  have hbook_new : (addBook w 0 t a i).bookAt w.heap.length = ⟨t, a, i, true⟩ := by
    simp only [World.bookAt, addBook_heap]
    exact getD_concat_length _ _ _
  have hhold : ∀ r : Nat, holdCount (addBook w 0 t a i) 0 r = holdCount w 0 r := by
    intro r
    refine holdCount_congr ?_ ?_ r
    · rw [hlib]
    · intro x _
      rw [hmem x]
  refine ⟨?_, ?_, ?_, ?_, ?_, ?_, ?_⟩
  · have : (addBook w 0 t a i).libs.length = w.libs.length := by
      rw [addBook_libs]; simp
    rw [this]; exact hw.libsNE
  · intro r hr
    rw [hlib] at hr
    simp only [List.mem_append, List.mem_singleton] at hr
    rw [hheaplen]
    rcases hr with hr | hr
    · exact Nat.lt_succ_of_lt (hw.booksValid r hr)
    · rw [hr]; exact Nat.lt_succ_self _
  · intro m hm
    rw [hlib] at hm
    exact hw.memsValid m hm
  · rw [hlib]
    exact hw.memsNodup
  · intro m hm r hr
    rw [hlib] at hm
    rw [hmem m] at hr
    rw [hheaplen]
    exact Nat.lt_succ_of_lt (hw.borValid m hm r hr)
  · intro r hr
    rw [hheaplen] at hr
    rw [hhold r]
    rcases Nat.lt_succ_iff_lt_or_eq.mp hr with hlt | heq
    · rw [hbook_old r hlt]
      exact hw.countInv r hlt
    · subst heq
      rw [hbook_new]
      simp only [if_pos rfl]
      refine sum_counts_eq_zero ?_
      intro x hx
      refine List.count_eq_zero.mpr ?_
      intro hmm
      exact absurd (hw.borValid x hx _ hmm) (lt_irrefl _)
  · intro m hm cap hcap
    rw [hlib] at hm
    rw [hmem m] at hcap ⊢
    exact hw.capInv m hm cap hcap

theorem inv_addMember (w : World) (n : String) (i : Int) (ρ : Role) (hw : Inv w) :
    Inv (addMember w 0 n i ρ) := by
  have hlib : (addMember w 0 n i ρ).libAt 0 =
      { w.libAt 0 with members := (w.libAt 0).members ++ [w.mems.length] } := by
    simp only [World.libAt, addMember_libs]
    exact getD_set_eq _ _ _ _ hw.libsNE
  have hmemslen : (addMember w 0 n i ρ).mems.length = w.mems.length + 1 := by
    rw [addMember_mems]; simp
  have hbook : ∀ r : Nat, (addMember w 0 n i ρ).bookAt r = w.bookAt r := fun _ => rfl
  have hmem_old : ∀ x : Nat, x < w.mems.length →
      (addMember w 0 n i ρ).memAt x = w.memAt x := by
    intro x hx
    simp only [World.memAt, addMember_mems]
    exact getD_append_lt _ _ _ hx _
  have hmem_new : (addMember w 0 n i ρ).memAt w.mems.length = ⟨n, i, ρ, []⟩ := by
    simp only [World.memAt, addMember_mems]
    exact getD_concat_length _ _ _
  refine ⟨?_, ?_, ?_, ?_, ?_, ?_, ?_⟩
  · have : (addMember w 0 n i ρ).libs.length = w.libs.length := by
      rw [addMember_libs]; simp
    rw [this]; exact hw.libsNE
  · intro r hr
    rw [hlib] at hr
    exact hw.booksValid r hr
  · intro m hm
    rw [hlib] at hm
    simp only [List.mem_append, List.mem_singleton] at hm
    rw [hmemslen]
    rcases hm with hm | hm
    · exact Nat.lt_succ_of_lt (hw.memsValid m hm)
    · rw [hm]; exact Nat.lt_succ_self _
  · rw [hlib]
    simp only [List.nodup_append, List.nodup_cons, List.not_mem_nil, not_false_iff,
      List.nodup_nil, true_and, and_true]
    refine ⟨hw.memsNodup, ?_⟩
    simp only [List.disjoint_singleton]
    intro hmm
    exact absurd (hw.memsValid _ hmm) (lt_irrefl _)
  · intro m hm r hr
    rw [hlib] at hm
    simp only [List.mem_append, List.mem_singleton] at hm
    rcases hm with hm | hm
    · rw [hmem_old m (hw.memsValid m hm)] at hr
      exact hw.borValid m hm r hr
    · subst hm
      rw [hmem_new] at hr
      simp at hr
  · intro r hr
    have hhold : holdCount (addMember w 0 n i ρ) 0 r = holdCount w 0 r := by
      unfold holdCount
      rw [hlib]
      simp only [List.map_append, List.sum_append]
      have h1 : ((w.libAt 0).members.map
          (fun mRef => ((addMember w 0 n i ρ).memAt mRef).borrowed_books.count r)).sum
          = holdCount w 0 r := by
        unfold holdCount
        congr 1
        refine List.map_congr_left ?_
        intro x hx
        rw [hmem_old x (hw.memsValid x hx)]
      have h2 : (([w.mems.length] : List Nat).map
          (fun mRef => ((addMember w 0 n i ρ).memAt mRef).borrowed_books.count r)).sum
          = 0 := by
        simp [hmem_new]
      rw [h1, h2]
      simp [holdCount]
    rw [hhold, hbook r]
    exact hw.countInv r hr
  · intro m hm cap hcap
    rw [hlib] at hm
    simp only [List.mem_append, List.mem_singleton] at hm
    rcases hm with hm | hm
    · rw [hmem_old m (hw.memsValid m hm)] at hcap ⊢
      exact hw.capInv m hm cap hcap
    · subst hm
      rw [hmem_new] at hcap ⊢
      simp

theorem inv_borrowedWorld (w : World) (mRef bRef : Nat) (hw : Inv w)
    (hm : mRef ∈ (w.libAt 0).members) (hb : bRef ∈ (w.libAt 0).books)
    (hav : (w.bookAt bRef).is_available = true)
    (hcaps : ∀ cap, roleLimit (w.memAt mRef).role = some cap →
      (w.memAt mRef).borrowed_books.length < cap) :
    Inv (borrowedWorld w mRef bRef) := by
  have hmlt : mRef < w.mems.length := hw.memsValid mRef hm
  have hblt : bRef < w.heap.length := hw.booksValid bRef hb
  have hlib : (borrowedWorld w mRef bRef).libAt 0 = w.libAt 0 := rfl
  have hheaplen : (borrowedWorld w mRef bRef).heap.length = w.heap.length := by
    rw [borrowedWorld_heap]; simp
  have hmemslen : (borrowedWorld w mRef bRef).mems.length = w.mems.length := by
    rw [borrowedWorld_mems]; simp
  have hmem_eq : (borrowedWorld w mRef bRef).memAt mRef =
      { w.memAt mRef with
          borrowed_books := (w.memAt mRef).borrowed_books ++ [bRef] } := by
    simp only [World.memAt, borrowedWorld_mems]
    exact getD_set_eq _ _ _ _ hmlt
  have hmem_ne : ∀ x : Nat, x ≠ mRef →
      (borrowedWorld w mRef bRef).memAt x = w.memAt x := by
    intro x hx
    simp only [World.memAt, borrowedWorld_mems]
    exact getD_set_ne _ _ _ _ _ hx
  have hbook_eq : (borrowedWorld w mRef bRef).bookAt bRef =
      { w.bookAt bRef with is_available := false } := by
    simp only [World.bookAt, borrowedWorld_heap]
    exact getD_set_eq _ _ _ _ hblt
  have hbook_ne : ∀ r : Nat, r ≠ bRef →
      (borrowedWorld w mRef bRef).bookAt r = w.bookAt r := by
    intro r hr
    simp only [World.bookAt, borrowedWorld_heap]
    exact getD_set_ne _ _ _ _ _ hr
  have hdecomp : ∀ r : Nat, holdCount (borrowedWorld w mRef bRef) 0 r =
      ((borrowedWorld w mRef bRef).memAt mRef).borrowed_books.count r +
        (((w.libAt 0).members.erase mRef).map
          (fun x => (w.memAt x).borrowed_books.count r)).sum := by
    intro r
    unfold holdCount
    rw [hlib, sum_counts_mem_decomp _ hm]
    refine congrArg₂ (· + ·) rfl (congrArg List.sum (List.map_congr_left ?_))
    intro x hx
    rw [hmem_ne x (ne_of_mem_erase_nodup hw.memsNodup hx)]
  have hdecompw : ∀ r : Nat, holdCount w 0 r =
      (w.memAt mRef).borrowed_books.count r +
        (((w.libAt 0).members.erase mRef).map
          (fun x => (w.memAt x).borrowed_books.count r)).sum := by
    intro r
    unfold holdCount
    rw [sum_counts_mem_decomp _ hm]
  refine ⟨?_, ?_, ?_, ?_, ?_, ?_, ?_⟩
  · rw [borrowedWorld_libs]
    exact hw.libsNE
  · intro r hr
    rw [hlib] at hr
    rw [hheaplen]
    exact hw.booksValid r hr
  · intro m hmm
    rw [hlib] at hmm
    rw [hmemslen]
    exact hw.memsValid m hmm
  · rw [hlib]
    exact hw.memsNodup
  · intro m hmm r hr
    rw [hlib] at hmm
    rw [hheaplen]
    by_cases hx : m = mRef
    · subst hx
      rw [hmem_eq] at hr
      simp only [List.mem_append, List.mem_singleton] at hr
      rcases hr with hr | hr
      · exact hw.borValid m hmm r hr
      · rw [hr]; exact hblt
    · rw [hmem_ne m hx] at hr
      exact hw.borValid m hmm r hr
  · intro r hr
    rw [hheaplen] at hr
    by_cases hx : r = bRef
    · subst hx
      rw [hbook_eq]
      have hz : holdCount w 0 r = 0 := by
        rw [hw.countInv r hr, hav]
        simp
      have hz2 := hdecompw r
      rw [hdecomp r, hmem_eq]
      simp only [List.count_append]
      have hc1 : List.count r [r] = 1 := by simp
      have hc0 : (w.memAt mRef).borrowed_books.count r = 0 := by omega
      have hs0 : (((w.libAt 0).members.erase mRef).map
          (fun x => (w.memAt x).borrowed_books.count r)).sum = 0 := by omega
      rw [hc1, hc0, hs0]
      simp
    · rw [hbook_ne r hx, hdecomp r, hmem_eq]
      simp only [List.count_append]
      have hc0 : List.count r [bRef] = 0 := by simp [hx]
      rw [hc0, Nat.add_zero, ← hdecompw r]
      exact hw.countInv r hr
  · intro m hmm cap hcap
    rw [hlib] at hmm
    by_cases hx : m = mRef
    · subst hx
      rw [hmem_eq] at hcap ⊢
      simp only [List.length_append, List.length_singleton]
      exact Nat.succ_le_of_lt (hcaps cap hcap)
    · rw [hmem_ne m hx] at hcap ⊢
      exact hw.capInv m hmm cap hcap

theorem inv_memberReturn (w : World) (mRef r : Nat) (hw : Inv w)
    (hm : mRef ∈ (w.libAt 0).members)
    (hr_mem : r ∈ (w.memAt mRef).borrowed_books) :
    Inv ((w.setBookAt r { w.bookAt r with is_available := true }).setMemAt mRef
      { w.memAt mRef with
          borrowed_books := (w.memAt mRef).borrowed_books.erase r }) := by
  set w' := (w.setBookAt r { w.bookAt r with is_available := true }).setMemAt mRef
    { w.memAt mRef with
        borrowed_books := (w.memAt mRef).borrowed_books.erase r } with hw'
  have hmlt : mRef < w.mems.length := hw.memsValid mRef hm
  have hrlt : r < w.heap.length := hw.borValid mRef hm r hr_mem
  have hlib : w'.libAt 0 = w.libAt 0 := rfl
  have hheaplen : w'.heap.length = w.heap.length := by
    simp [hw', World.setMemAt, World.setBookAt]
  have hmemslen : w'.mems.length = w.mems.length := by
    simp [hw', World.setMemAt, World.setBookAt]
  have hmem_eq : w'.memAt mRef =
      { w.memAt mRef with
          borrowed_books := (w.memAt mRef).borrowed_books.erase r } := by
    simp only [hw', World.memAt, World.setMemAt, World.setBookAt]
    exact getD_set_eq _ _ _ _ hmlt
  have hmem_ne : ∀ x : Nat, x ≠ mRef → w'.memAt x = w.memAt x := by
    intro x hx
    simp only [hw', World.memAt, World.setMemAt, World.setBookAt]
    exact getD_set_ne _ _ _ _ _ hx
  have hbook_eq : w'.bookAt r = { w.bookAt r with is_available := true } := by
    simp only [hw', World.bookAt, World.setMemAt, World.setBookAt]
    exact getD_set_eq _ _ _ _ hrlt
  have hbook_ne : ∀ x : Nat, x ≠ r → w'.bookAt x = w.bookAt x := by
    intro x hx
    simp only [hw', World.bookAt, World.setMemAt, World.setBookAt]
    exact getD_set_ne _ _ _ _ _ hx
  have hdecomp : ∀ x : Nat, holdCount w' 0 x =
      (w'.memAt mRef).borrowed_books.count x +
        (((w.libAt 0).members.erase mRef).map
          (fun y => (w.memAt y).borrowed_books.count x)).sum := by
    intro x
    unfold holdCount
    rw [hlib, sum_counts_mem_decomp _ hm]
    refine congrArg₂ (· + ·) rfl (congrArg List.sum (List.map_congr_left ?_))
    intro y hy
    rw [hmem_ne y (ne_of_mem_erase_nodup hw.memsNodup hy)]
  have hdecompw : ∀ x : Nat, holdCount w 0 x =
      (w.memAt mRef).borrowed_books.count x +
        (((w.libAt 0).members.erase mRef).map
          (fun y => (w.memAt y).borrowed_books.count x)).sum := by
    intro x
    unfold holdCount
    rw [sum_counts_mem_decomp _ hm]
  have hpos : 0 < (w.memAt mRef).borrowed_books.count r :=
    List.count_pos_iff.mpr hr_mem
  have havf : (w.bookAt r).is_available = false := by
    by_cases hx : (w.bookAt r).is_available
    · exfalso
      have h0 : holdCount w 0 r = 0 := by
        rw [hw.countInv r hrlt, hx]
        simp
      have := hdecompw r
      omega
    · simpa using hx
  have hone : holdCount w 0 r = 1 := by
    rw [hw.countInv r hrlt, havf]
    simp
  have hcnt1 : (w.memAt mRef).borrowed_books.count r = 1 := by
    have := hdecompw r
    omega
  have hrest0 : (((w.libAt 0).members.erase mRef).map
      (fun y => (w.memAt y).borrowed_books.count r)).sum = 0 := by
    have := hdecompw r
    omega
  refine ⟨?_, ?_, ?_, ?_, ?_, ?_, ?_⟩
  · have : w'.libs.length = w.libs.length := rfl
    rw [this]
    exact hw.libsNE
  · intro x hx
    rw [hlib] at hx
    rw [hheaplen]
    exact hw.booksValid x hx
  · intro m hmm
    rw [hlib] at hmm
    rw [hmemslen]
    exact hw.memsValid m hmm
  · rw [hlib]
    exact hw.memsNodup
  · intro m hmm x hx
    rw [hlib] at hmm
    rw [hheaplen]
    by_cases hmx : m = mRef
    · subst hmx
      rw [hmem_eq] at hx
      exact hw.borValid m hmm x (List.mem_of_mem_erase hx)
    · rw [hmem_ne m hmx] at hx
      exact hw.borValid m hmm x hx
  · intro x hx
    rw [hheaplen] at hx
    by_cases hxr : x = r
    · subst hxr
      rw [hbook_eq]
      rw [hdecomp x, hmem_eq]
      simp only [List.count_erase_self]
      rw [hcnt1, hrest0]
      simp
    · rw [hbook_ne x hxr, hdecomp x, hmem_eq]
      simp only []
      rw [List.count_erase_of_ne hxr, ← hdecompw x]
      exact hw.countInv x hx
  · intro m hmm cap hcap
    rw [hlib] at hmm
    by_cases hmx : m = mRef
    · subst hmx
      rw [hmem_eq] at hcap ⊢
      simp only []
      refine le_trans ?_ (hw.capInv m hmm cap hcap)
      exact (List.erase_sublist _ _).length_le
    · rw [hmem_ne m hmx] at hcap ⊢
      exact hw.capInv m hmm cap hcap



theorem inv_libBorrow (w : World) (mid bid : Int) (hw : Inv w) :
    Inv (libBorrow w 0 mid bid).1 := by
  cases hm : getMemberRef w 0 mid with
  | none => simpa [libBorrow, hm] using hw
  | some mRef =>
    cases hb : findBookRef w 0 bid with
    | none => simpa [libBorrow, hm, hb] using hw
    | some bRef =>
      have heq : libBorrow w 0 mid bid = memberBorrowBook w mRef bRef := by
        simp [libBorrow, hm, hb]
      rw [heq]
      rcases memberBorrowBook_spec w mRef bRef with hcase | ⟨hav, hcaps, hcase⟩
      · rw [hcase]; exact hw
      · rw [hcase]
        exact inv_borrowedWorld w mRef bRef hw (List.mem_of_find?_eq_some hm)
          (List.mem_of_find?_eq_some hb) hav hcaps

theorem inv_libReturn (w : World) (mid bid : Int) (hw : Inv w) :
    Inv (libReturnBook w 0 mid bid).1 := by
  cases hm : getMemberRef w 0 mid with
  | none => simpa [libReturnBook, hm] using hw
  | some mRef =>
    have heq : libReturnBook w 0 mid bid = memberReturnBook w mRef bid := by
      simp [libReturnBook, hm]
    rw [heq]
    rcases memberReturnBook_spec w mRef bid with ⟨_, hcase⟩ | ⟨r, hf, hcase⟩
    · rw [hcase]; exact hw
    · rw [hcase]
      exact inv_memberReturn w mRef r hw (List.mem_of_find?_eq_some hm)
        (List.mem_of_find?_eq_some hf)

theorem inv_removeBook (w : World) (bid : Int) (hw : Inv w) :
    Inv (removeBook w 0 bid).1 := by
  cases hf : (w.libAt 0).books.find?
      (fun r => (w.bookAt r).book_id == bid && (w.bookAt r).is_available) with
  | none => simpa [removeBook, hf] using hw
  | some r =>
    have heq : (removeBook w 0 bid).1 =
        w.setLibAt 0 { w.libAt 0 with books := (w.libAt 0).books.erase r } := by
      simp [removeBook, hf]
    rw [heq]
    have hlib : (w.setLibAt 0
        { w.libAt 0 with books := (w.libAt 0).books.erase r }).libAt 0 =
        { w.libAt 0 with books := (w.libAt 0).books.erase r } :=
      libAt_setLibAt_eq w 0 _ hw.libsNE
    refine ⟨?_, ?_, ?_, ?_, ?_, ?_, ?_⟩
    · simpa [World.setLibAt] using hw.libsNE
    · intro x hx
      rw [hlib] at hx
      exact hw.booksValid x (List.mem_of_mem_erase hx)
    · intro m hmm
      rw [hlib] at hmm
      exact hw.memsValid m hmm
    · rw [hlib]
      exact hw.memsNodup
    · intro m hmm x hx
      rw [hlib] at hmm
      exact hw.borValid m hmm x hx
    · intro x hx
      have hh : holdCount
          (w.setLibAt 0 { w.libAt 0 with books := (w.libAt 0).books.erase r }) 0 x =
          holdCount w 0 x := by
        refine holdCount_congr ?_ ?_ x
        · rw [hlib]
        · intro y _
          rfl
      rw [hh]
      exact hw.countInv x hx
    · intro m hmm cap hcap
      rw [hlib] at hmm
      exact hw.capInv m hmm cap hcap

theorem inv_applyOp (w : World) (op : CatOp) (hw : Inv w) : Inv (applyOp w op) := by
  cases op with
  | addBook t a i => exact inv_addBook w t a i hw
  | addMember n i ρ => exact inv_addMember w n i ρ hw
  | borrow mid bid => exact inv_libBorrow w mid bid hw
  | returnBook mid bid => exact inv_libReturn w mid bid hw
  | removeBook bid => exact inv_removeBook w bid hw

theorem inv_freshCatalog (name : String) : Inv (freshCatalog name) := by
  refine ⟨?_, ?_, ?_, ?_, ?_, ?_, ?_⟩ <;>
    simp [freshCatalog, World.libAt, holdCount]

theorem inv_foldl (ops : List CatOp) (w : World) (hw : Inv w) :
    Inv (ops.foldl applyOp w) := by
  induction ops generalizing w with
  | nil => exact hw
  | cons op rest ih => exact ih (applyOp w op) (inv_applyOp w op hw)

theorem inv_runOps (name : String) (ops : List CatOp) : Inv (runOps name ops) :=
  inv_foldl ops (freshCatalog name) (inv_freshCatalog name)

theorem filter_contains_length_of_sum_zero (r : Nat) (f : Nat → List Nat) :
    ∀ l : List Nat, ((l.map fun m => (f m).count r).sum = 0) →
      (l.filter fun m => (f m).contains r).length = 0 := by
  intro l
  induction l with
  | nil => intro _; rfl
  | cons a t ih =>
    intro h
    simp only [List.map_cons, List.sum_cons] at h
    have h1 : (f a).count r = 0 := by omega
    have h2 : (t.map fun m => (f m).count r).sum = 0 := by omega
    have hnc : (f a).contains r = false := by
      simpa using List.count_eq_zero.mp h1
    simp only [List.filter_cons, hnc, Bool.false_eq_true, if_false]
    exact ih h2

theorem filter_contains_length_of_sum_one (r : Nat) (f : Nat → List Nat) :
    ∀ l : List Nat, ((l.map fun m => (f m).count r).sum = 1) →
      (l.filter fun m => (f m).contains r).length = 1 := by
  intro l
  induction l with
  | nil => intro h; simp at h
  | cons a t ih =>
    intro h
    simp only [List.map_cons, List.sum_cons] at h
    by_cases hc : (f a).count r = 0
    · have h2 : (t.map fun m => (f m).count r).sum = 1 := by omega
      have hnc : (f a).contains r = false := by
        simpa using List.count_eq_zero.mp hc
      simp only [List.filter_cons, hnc, Bool.false_eq_true, if_false]
      exact ih h2
    · have hmem : r ∈ f a := List.count_pos_iff.mp (Nat.pos_of_ne_zero hc)
      have h2 : (t.map fun m => (f m).count r).sum = 0 := by
        have : 0 < (f a).count r := Nat.pos_of_ne_zero hc
        omega
      have hcc : (f a).contains r = true := by
        simpa using hmem
      simp only [List.filter_cons, hcc, if_true, List.length_cons]
      rw [filter_contains_length_of_sum_zero r f t h2]

theorem holdersCount_of_holdCount_zero {w : World} {r : Nat}
    (h : holdCount w 0 r = 0) : holdersCount w 0 r = 0 :=
  filter_contains_length_of_sum_zero r (fun m => (w.memAt m).borrowed_books)
    (w.libAt 0).members h

theorem holdersCount_of_holdCount_one {w : World} {r : Nat}
    (h : holdCount w 0 r = 1) : holdersCount w 0 r = 1 :=
  filter_contains_length_of_sum_one r (fun m => (w.memAt m).borrowed_books)
    (w.libAt 0).members h


/-- C1: in every state reachable from a freshly created Catalog by any
sequence of the five catalog operations, a Book of the catalog has
`is_available = false` exactly when exactly one member of the catalog has it
in their borrowed sequence. -/
theorem claim_C1_availability_iff_unique_holder (name : String) (ops : List CatOp)
    (r : Nat) (hr : r ∈ ((runOps name ops).libAt 0).books) :
    ((runOps name ops).bookAt r).is_available = false ↔
      holdersCount (runOps name ops) 0 r = 1 := by
  have hw := inv_runOps name ops
  have hrl : r < (runOps name ops).heap.length := hw.booksValid r hr
  have hcnt := hw.countInv r hrl
  constructor
  · intro hfalse
    rw [hfalse] at hcnt
    simp only [Bool.false_eq_true, if_false] at hcnt
    exact holdersCount_of_holdCount_one hcnt
  · intro hone
    by_cases hav : ((runOps name ops).bookAt r).is_available
    · exfalso
      rw [hav] at hcnt
      simp only [if_true] at hcnt
      have := holdersCount_of_holdCount_zero hcnt
      omega
    · simpa using hav

/-- Witness for C1: after adding book 101, registering student 1 and a
successful borrow, book reference 0 is in the catalog, is unavailable, and
exactly one member holds it. -/
theorem claim_C1_availability_iff_unique_holder_witness :
    0 ∈ ((runOps "C" [CatOp.addBook "T" "A" 101,
        CatOp.addMember "Alice" 1 Role.student, CatOp.borrow 1 101]).libAt 0).books ∧
      (((runOps "C" [CatOp.addBook "T" "A" 101,
          CatOp.addMember "Alice" 1 Role.student,
          CatOp.borrow 1 101]).bookAt 0).is_available = false ↔
        holdersCount (runOps "C" [CatOp.addBook "T" "A" 101,
          CatOp.addMember "Alice" 1 Role.student, CatOp.borrow 1 101]) 0 0 = 1) :=
  ⟨by decide,
    claim_C1_availability_iff_unique_holder "C"
      [CatOp.addBook "T" "A" 101, CatOp.addMember "Alice" 1 Role.student,
        CatOp.borrow 1 101] 0 (by decide)⟩

/-- C2: in every reachable catalog state a student member holds at most 3
books and a faculty member at most 10; and whenever a member is at its cap,
`borrow_book` returns `False` and leaves the whole world (so in particular
the member's borrowed sequence and the target book's availability)
unchanged. -/
theorem claim_C2_borrow_caps :
    (∀ (name : String) (ops : List CatOp) (mRef : Nat),
      mRef ∈ ((runOps name ops).libAt 0).members →
        ((((runOps name ops).memAt mRef).role = Role.student →
            ((runOps name ops).memAt mRef).borrowed_books.length ≤ 3) ∧
          (((runOps name ops).memAt mRef).role = Role.faculty →
            ((runOps name ops).memAt mRef).borrowed_books.length ≤ 10))) ∧
    (∀ (w : World) (mRef bRef : Nat),
      ((w.memAt mRef).role = Role.student →
        3 ≤ (w.memAt mRef).borrowed_books.length →
        memberBorrowBook w mRef bRef = (w, false)) ∧
      ((w.memAt mRef).role = Role.faculty →
        10 ≤ (w.memAt mRef).borrowed_books.length →
        memberBorrowBook w mRef bRef = (w, false))) := by
  constructor
  · intro name ops mRef hm
    have hw := inv_runOps name ops
    constructor
    · intro hrole
      exact hw.capInv mRef hm 3 (by rw [hrole]; rfl)
    · intro hrole
      exact hw.capInv mRef hm 10 (by rw [hrole]; rfl)
  · intro w mRef bRef
    constructor
    · intro hrole hlen
      simp [memberBorrowBook, hrole, roleLimit, memberBorrowAux, studentMaxBorrow, hlen]
    · intro hrole hlen
      simp [memberBorrowBook, hrole, roleLimit, memberBorrowAux, facultyMaxBorrow, hlen]

/-- Witness for C2: a freshly registered student holds at most 3 books, and
the at-cap student of `wAtCap` gets `(wAtCap, false)` from a borrow
attempt. -/
theorem claim_C2_borrow_caps_witness :
    ((runOps "C" [CatOp.addMember "s" 1 Role.student]).memAt 0).borrowed_books.length ≤ 3 ∧
      memberBorrowBook wAtCap 0 3 = (wAtCap, false) :=
  ⟨(claim_C2_borrow_caps.1 "C" [CatOp.addMember "s" 1 Role.student] 0
        (by decide)).1 (by decide),
    (claim_C2_borrow_caps.2 wAtCap 0 3).1 (by decide) (by decide)⟩


theorem getD_ge_length {α : Type _} (l : List α) (n : Nat) (d : α) (h : l.length ≤ n) :
    l.getD n d = d := by
  induction l generalizing n with
  | nil => cases n <;> rfl
  | cons a t ih =>
    cases n with
    | zero => simp at h
    | succ m => simpa using ih m (by simpa using h)

theorem mergeLibs_libAt_new (w : World) (a b : Nat) :
    (mergeLibs w a b).libAt w.libs.length =
      { name := (w.libAt a).name ++ " & " ++ (w.libAt b).name
        books := dedupFirst (fun r => (w.bookAt r).book_id)
          ((w.libAt a).books ++ (w.libAt b).books) []
        members := dedupFirst (fun r => (w.memAt r).member_id)
          ((w.libAt a).members ++ (w.libAt b).members) [] } := by
  simp only [World.libAt, mergeLibs]
  exact getD_concat_length _ _ _

theorem dedupFirst_eq_spec_filter (key : Nat → Int) :
    ∀ (l : List Nat) (seen : List Int),
      dedupFirst key l seen =
        specDedupFirst key (l.filter (fun x => !(seen.contains (key x)))) := by
  intro l
  induction l with
  | nil => intro seen; simp [dedupFirst, specDedupFirst]
  | cons r rest ih =>
    intro seen
    by_cases hs : key r ∈ seen
    · have hcontains : seen.contains (key r) = true := by simpa using hs
      simp only [dedupFirst, if_pos hs, List.filter_cons, hcontains, Bool.not_true,
        Bool.false_eq_true, if_false]
      exact ih seen
    · have hcontains : seen.contains (key r) = false := by simpa using hs
      simp only [dedupFirst, if_neg hs, List.filter_cons, hcontains, Bool.not_false,
        if_true]
      rw [specDedupFirst, ih (key r :: seen), List.filter_filter]
      have hfe : (rest.filter fun x => !((key r :: seen).contains (key x))) =
          (rest.filter fun x => !(key x == key r) && !(seen.contains (key x))) := by
        refine List.filter_congr ?_
        intro x _
        simp only [List.contains_cons, Bool.not_or]
      rw [hfe]

theorem dedupFirst_eq_spec (key : Nat → Int) (l : List Nat) :
    dedupFirst key l [] = specDedupFirst key l := by
  rw [dedupFirst_eq_spec_filter]
  congr 1
  simp

theorem dedupFirst_subset (key : Nat → Int) :
    ∀ (l : List Nat) (seen : List Int) (r : Nat), r ∈ dedupFirst key l seen → r ∈ l := by
  intro l
  induction l with
  | nil =>
    intro seen r h
    simp [dedupFirst] at h
  | cons a t ih =>
    intro seen r h
    by_cases hs : key a ∈ seen
    · simp only [dedupFirst, if_pos hs] at h
      exact List.mem_cons_of_mem a (ih seen r h)
    · simp only [dedupFirst, if_neg hs] at h
      rcases List.mem_cons.mp h with h | h
      · exact h ▸ List.mem_cons_self a t
      · exact List.mem_cons_of_mem a (ih _ r h)

theorem dedupFirst_filter_key (key : Nat → Int) :
    ∀ (l : List Nat) (seen : List Int) (k : Int),
      ((dedupFirst key l seen).filter (fun r => key r == k)).length ≤ 1 ∧
        (k ∈ seen → ((dedupFirst key l seen).filter (fun r => key r == k)).length = 0) := by
  intro l
  induction l with
  | nil => intro seen k; simp [dedupFirst]
  | cons a t ih =>
    intro seen k
    by_cases hs : key a ∈ seen
    · simp only [dedupFirst, if_pos hs]
      exact ih seen k
    · simp only [dedupFirst, if_neg hs]
      by_cases hk : (key a == k) = true
      · have hkk : key a = k := by simpa using hk
        constructor
        · simp only [List.filter_cons, hk, if_true, List.length_cons]
          have h0 := (ih (key a :: seen) k).2 (by rw [← hkk]; exact List.mem_cons_self _ _)
          rw [h0]
        · intro hkseen
          exact absurd (hkk ▸ hkseen) hs
      · have hkb : (key a == k) = false := by simpa using hk
        simp only [List.filter_cons, hkb, Bool.false_eq_true, if_false]
        constructor
        · exact (ih (key a :: seen) k).1
        · intro hkseen
          exact (ih (key a :: seen) k).2 (List.mem_cons_of_mem _ hkseen)

/-- C3: `merge` produces a catalog named `"<A.name> & <B.name>"` whose
books and members are the concatenations of the sources' lists deduplicated
by id keeping the first occurrence (stated through the spec-side
`specDedupFirst`); concretely, merging books with ids `[1, 2]` and `[2, 3]`
yields references `[0, 1, 3]` with ids `[1, 2, 3]`, where reference 1 is the
first catalog's copy of id 2 and reference 2 (the second catalog's copy) is
dropped. -/
theorem claim_C3_merge_dedup_first_occurrence (w : World) (a b : Nat) :
    (((mergeLibs w a b).libAt w.libs.length).name =
        (w.libAt a).name ++ " & " ++ (w.libAt b).name ∧
      ((mergeLibs w a b).libAt w.libs.length).books =
        specDedupFirst (fun r => (w.bookAt r).book_id)
          ((w.libAt a).books ++ (w.libAt b).books) ∧
      ((mergeLibs w a b).libAt w.libs.length).members =
        specDedupFirst (fun r => (w.memAt r).member_id)
          ((w.libAt a).members ++ (w.libAt b).members)) ∧
    (((mergeLibs wMergeDemo 0 1).libAt 2).books = [0, 1, 3] ∧
      ((mergeLibs wMergeDemo 0 1).libAt 2).books.map
          (fun r => (wMergeDemo.bookAt r).book_id) = [1, 2, 3] ∧
      1 ∈ (wMergeDemo.libAt 0).books ∧
      2 ∉ ((mergeLibs wMergeDemo 0 1).libAt 2).books) := by
  constructor
  · rw [mergeLibs_libAt_new]
    exact ⟨rfl, dedupFirst_eq_spec _ _, dedupFirst_eq_spec _ _⟩
  · exact ⟨by decide, by decide, by decide, by decide⟩

/-- C9: merging leaves both source catalogs (and every book and member
object) unchanged: the heaps are untouched, every pre-existing library is
intact, and the one appended catalog only references books and members of
its two sources. -/
theorem claim_C9_merge_frame (w : World) (a b : Nat) :
    (mergeLibs w a b).heap = w.heap ∧
    (mergeLibs w a b).mems = w.mems ∧
    (mergeLibs w a b).libs.length = w.libs.length + 1 ∧
    (∀ L, L < w.libs.length → (mergeLibs w a b).libAt L = w.libAt L) ∧
    (∀ r ∈ ((mergeLibs w a b).libAt w.libs.length).books,
      r ∈ (w.libAt a).books ++ (w.libAt b).books) ∧
    (∀ m ∈ ((mergeLibs w a b).libAt w.libs.length).members,
      m ∈ (w.libAt a).members ++ (w.libAt b).members) := by
  refine ⟨rfl, rfl, by simp [mergeLibs], ?_, ?_, ?_⟩
  · intro L hL
    simp only [World.libAt, mergeLibs]
    exact getD_append_lt _ _ _ hL _
  · intro r hr
    rw [mergeLibs_libAt_new] at hr
    exact dedupFirst_subset _ _ _ r hr
  · intro m hm
    rw [mergeLibs_libAt_new] at hm
    exact dedupFirst_subset _ _ _ m hm

/-- Witness for C9: merging the two demo libraries leaves library 0 exactly
as it was. -/
theorem claim_C9_merge_frame_witness :
    (mergeLibs wMergeDemo 0 1).libAt 0 = wMergeDemo.libAt 0 :=
  (claim_C9_merge_frame wMergeDemo 0 1).2.2.2.1 0 (by decide)

/-- C10: the merged catalog never carries two books (or two members) with
the same id — deduplication applies inside a single source as well — and
concretely a source catalog whose own book list repeats id 7 merges into a
catalog with strictly fewer books, keeping only the first copy. -/
theorem claim_C10_merge_dedup_within_source :
    (∀ (w : World) (a b : Nat) (k : Int),
      (((mergeLibs w a b).libAt w.libs.length).books.filter
          (fun r => (w.bookAt r).book_id == k)).length ≤ 1 ∧
      (((mergeLibs w a b).libAt w.libs.length).members.filter
          (fun r => (w.memAt r).member_id == k)).length ≤ 1) ∧
    ((mergeLibs wDupDemo 0 1).libAt 2).books = [0] ∧
    ((mergeLibs wDupDemo 0 1).libAt 2).books.length <
      (wDupDemo.libAt 0).books.length := by
  refine ⟨?_, by decide, by decide⟩
  intro w a b k
  rw [mergeLibs_libAt_new]
  exact ⟨(dedupFirst_filter_key _ _ [] k).1, (dedupFirst_filter_key _ _ [] k).1⟩


/-- C4 counterexample: in catalog `w4cex` — reached from a fresh catalog by
adding two books that share id 5, registering student 1 and borrowing id 5 —
the first (and lookup-visible) book with id 5 is borrowed and a member holds
a book with id 5, yet `remove_book(5)` returns success and changes the book
collection, against the claim's required failure with no change. -/
theorem claim_C4_remove_borrowed_id_cex :
    findBookRef w4cex 0 5 = some 0 ∧
    (w4cex.bookAt 0).is_available = false ∧
    (∃ mRef ∈ (w4cex.libAt 0).members, ∃ r ∈ (w4cex.memAt mRef).borrowed_books,
      (w4cex.bookAt r).book_id = 5) ∧
    (removeBook w4cex 0 5).2 = true ∧
    ((removeBook w4cex 0 5).1.libAt 0).books ≠ (w4cex.libAt 0).books := by
  decide

/-- C4 amended: `remove_book(id)` removes the first book that both matches
the id and is available, returning success with only that one reference
deleted from the book list; it returns failure, leaving the world unchanged,
exactly when no book of the catalog both matches the id and is available —
in particular when every book carrying the id is currently borrowed. -/
theorem claim_C4_amended_remove_first_available (w : World) (L : Nat) (bid : Int) :
    ((removeBook w L bid).2 = false ↔
      ∀ r ∈ (w.libAt L).books,
        ¬((w.bookAt r).book_id = bid ∧ (w.bookAt r).is_available = true)) ∧
    ((removeBook w L bid).2 = false → (removeBook w L bid).1 = w) ∧
    ((removeBook w L bid).2 = true →
      ∃ l1 r l2, (w.libAt L).books = l1 ++ r :: l2 ∧
        (w.bookAt r).book_id = bid ∧ (w.bookAt r).is_available = true ∧
        (∀ x ∈ l1, ¬((w.bookAt x).book_id = bid ∧ (w.bookAt x).is_available = true)) ∧
        ((removeBook w L bid).1.libAt L).books = l1 ++ l2 ∧
        (removeBook w L bid).1.heap = w.heap ∧
        (removeBook w L bid).1.mems = w.mems) := by
  cases hf : (w.libAt L).books.find?
      (fun r => (w.bookAt r).book_id == bid && (w.bookAt r).is_available) with
  | none =>
    have h2 : (removeBook w L bid).2 = false := by simp [removeBook, hf]
    have h1 : (removeBook w L bid).1 = w := by simp [removeBook, hf]
    refine ⟨iff_of_true h2 ?_, fun _ => h1, ?_⟩
    · intro r hr hcontra
      have := List.find?_eq_none.mp hf r hr
      simp only [Bool.and_eq_true, beq_iff_eq] at this
      exact this ⟨hcontra.1, hcontra.2⟩
    · intro htrue
      rw [h2] at htrue
      cases htrue
  | some r =>
    have h2 : (removeBook w L bid).2 = true := by simp [removeBook, hf]
    have hrem : (removeBook w L bid).1 =
        w.setLibAt L { w.libAt L with books := (w.libAt L).books.erase r } := by
      simp [removeBook, hf]
    have hpred := List.find?_some hf
    have hmemb := List.mem_of_find?_eq_some hf
    have hid : (w.bookAt r).book_id = bid := by
      simp only [Bool.and_eq_true, beq_iff_eq] at hpred
      exact hpred.1
    have hav : (w.bookAt r).is_available = true := by
      simp only [Bool.and_eq_true, beq_iff_eq] at hpred
      exact hpred.2
    have hL : L < w.libs.length := by
      by_contra hnot
      have hdum : w.libAt L = dummyLibrary :=
        getD_ge_length _ _ _ (Nat.le_of_not_lt hnot)
      rw [hdum] at hmemb
      simp [dummyLibrary] at hmemb
    have h1lib : ((removeBook w L bid).1).libAt L =
        { w.libAt L with books := (w.libAt L).books.erase r } := by
      rw [hrem]
      exact libAt_setLibAt_eq w L _ hL
    refine ⟨iff_of_false (by rw [h2]; simp) ?_, ?_, ?_⟩
    · intro hall
      exact (hall r hmemb) ⟨hid, hav⟩
    · intro hfalse
      rw [h2] at hfalse
      cases hfalse
    · intro _
      rcases List.find?_eq_some.mp hf with ⟨hpr, l1, l2, hsplit, hprev⟩
      have hr_not_l1 : r ∉ l1 := by
        intro hrl1
        have hneg := hprev r hrl1
        rw [hpr] at hneg
        cases hneg
      refine ⟨l1, r, l2, hsplit, hid, hav, ?_, ?_, by rw [hrem]; rfl, by rw [hrem]; rfl⟩
      · intro x hx hcontra
        have hneg := hprev x hx
        simp only [Bool.not_eq_eq_eq_not, Bool.not_true, Bool.and_eq_false_iff] at hneg
        rcases hneg with hneg | hneg
        · rw [hcontra.1] at hneg
          simp at hneg
        · rw [hcontra.2] at hneg
          cases hneg
      · rw [h1lib]
        simp only []
        rw [hsplit, List.erase_append_right _ hr_not_l1, List.erase_cons_head]

/-- Witness for the amended C4: removing an id absent from `wOne` fails and
leaves the world untouched. -/
theorem claim_C4_amended_remove_first_available_witness :
    (removeBook wOne 0 999).1 = wOne :=
  (claim_C4_amended_remove_first_available wOne 0 999).2.1 (by decide)

/-- C5 counterexample: member 0 of `w5cex` already holds book 0, which
shares id 5 with the still-available book 1; borrowing book 1 succeeds, but
the following `return_book(5)` hits the older same-id entry first, so the
just-borrowed book stays unavailable and stays in the borrowed sequence —
the round trip of the claim fails. -/
theorem claim_C5_round_trip_cex :
    (w5cex.bookAt 1).is_available = true ∧
    (memberBorrowBook w5cex 0 1).2 = true ∧
    (memberReturnBook (memberBorrowBook w5cex 0 1).1 0
      ((w5cex.bookAt 1).book_id)).2 = true ∧
    ((memberReturnBook (memberBorrowBook w5cex 0 1).1 0
      ((w5cex.bookAt 1).book_id)).1.bookAt 1).is_available = false ∧
    1 ∈ ((memberReturnBook (memberBorrowBook w5cex 0 1).1 0
      ((w5cex.bookAt 1).book_id)).1.memAt 0).borrowed_books := by
  decide

/-- C5 amended: when the member holds no other book whose id equals the
borrowed book's id, a successful borrow followed by returning that id
restores the entire world exactly — the book is available again, it is gone
from the member's borrowed sequence, and no other book, member or library
changes. -/
theorem claim_C5_amended_round_trip (w : World) (mRef bRef : Nat)
    (hm : mRef < w.mems.length) (hb : bRef < w.heap.length)
    (hfresh : ∀ r ∈ (w.memAt mRef).borrowed_books,
      (w.bookAt r).book_id ≠ (w.bookAt bRef).book_id)
    (hsucc : (memberBorrowBook w mRef bRef).2 = true) :
    memberReturnBook (memberBorrowBook w mRef bRef).1 mRef
      ((w.bookAt bRef).book_id) = (w, true) := by
  rcases memberBorrowBook_spec w mRef bRef with hcase | ⟨hav, _, hcase⟩
  · rw [hcase] at hsucc
    cases hsucc
  · rw [hcase]
    have hbnotin : bRef ∉ (w.memAt mRef).borrowed_books := by
      intro hmem
      exact hfresh bRef hmem rfl
    have hmem_eq : (borrowedWorld w mRef bRef).memAt mRef =
        { w.memAt mRef with
            borrowed_books := (w.memAt mRef).borrowed_books ++ [bRef] } := by
      simp only [World.memAt, borrowedWorld_mems]
      exact getD_set_eq _ _ _ _ hm
    have hbook_eq : (borrowedWorld w mRef bRef).bookAt bRef =
        { w.bookAt bRef with is_available := false } := by
      simp only [World.bookAt, borrowedWorld_heap]
      exact getD_set_eq _ _ _ _ hb
    have hbook_ne : ∀ x : Nat, x ≠ bRef →
        (borrowedWorld w mRef bRef).bookAt x = w.bookAt x := by
      intro x hx
      simp only [World.bookAt, borrowedWorld_heap]
      exact getD_set_ne _ _ _ _ _ hx
    have hfind : ((borrowedWorld w mRef bRef).memAt mRef).borrowed_books.find?
        (fun x => ((borrowedWorld w mRef bRef).bookAt x).book_id ==
          (w.bookAt bRef).book_id) = some bRef := by
      rw [hmem_eq]
      simp only []
      rw [List.find?_append]
      have hnone : (w.memAt mRef).borrowed_books.find?
          (fun x => ((borrowedWorld w mRef bRef).bookAt x).book_id ==
            (w.bookAt bRef).book_id) = none := by
        refine List.find?_eq_none.mpr ?_
        intro x hx
        have hxne : x ≠ bRef := fun hcon => hbnotin (hcon ▸ hx)
        rw [hbook_ne x hxne]
        simp only [Bool.not_eq_true]
        exact beq_eq_false_iff_ne.mpr (hfresh x hx)
      rw [hnone]
      simp only [Option.none_or]
      have hpos : (((borrowedWorld w mRef bRef).bookAt bRef).book_id ==
          (w.bookAt bRef).book_id) = true := by
        rw [hbook_eq]
        simp
      simp [List.find?_cons, hpos]
    rw [memberReturnBook, hfind]
    have herase2 : ((w.memAt mRef).borrowed_books ++ [bRef]).erase bRef =
        (w.memAt mRef).borrowed_books := by
      rw [List.erase_append_right _ hbnotin, List.erase_cons_head, List.append_nil]
    have hbeq : ({ { w.bookAt bRef with is_available := false } with
        is_available := true } : Book) = w.bookAt bRef := by
      rcases hB : w.bookAt bRef with ⟨bt, ba, bi, bav⟩
      rw [hB] at hav
      have hbav : bav = true := hav
      subst hbav
      rfl
    have hheap : ((borrowedWorld w mRef bRef).setBookAt bRef
        { (borrowedWorld w mRef bRef).bookAt bRef with is_available := true }).heap =
        w.heap := by
      simp only [World.setBookAt, borrowedWorld_heap, hbook_eq]
      rw [List.set_set, hbeq]
      exact set_getD_self w.heap bRef dummyBook
    have hmems : (((borrowedWorld w mRef bRef).setBookAt bRef
        { (borrowedWorld w mRef bRef).bookAt bRef with is_available := true }).setMemAt
          mRef
          { (borrowedWorld w mRef bRef).memAt mRef with
              borrowed_books :=
                (((borrowedWorld w mRef bRef).memAt mRef).borrowed_books).erase
                  bRef }).mems = w.mems := by
      simp only [World.setMemAt, World.setBookAt, borrowedWorld_mems, hmem_eq, herase2]
      rw [List.set_set]
      exact set_getD_self w.mems mRef dummyMember
    refine Prod.ext ?_ rfl
    · exact worldEq_of_components hheap hmems rfl

/-- Witness for the amended C5: in `wOne`, borrowing book 0 and returning
id 101 restores the world exactly. -/
theorem claim_C5_amended_round_trip_witness :
    memberReturnBook (memberBorrowBook wOne 0 0).1 0 ((wOne.bookAt 0).book_id) =
      (wOne, true) :=
  claim_C5_amended_round_trip wOne 0 0 (by decide) (by decide) (by decide) (by decide)


theorem libBorrow_false_unchanged (w : World) (L : Nat) (mid bid : Int)
    (h : (libBorrow w L mid bid).2 = false) : (libBorrow w L mid bid).1 = w := by
  cases hm : getMemberRef w L mid with
  | none => simp [libBorrow, hm]
  | some mRef =>
    cases hb : findBookRef w L bid with
    | none => simp [libBorrow, hm, hb]
    | some bRef =>
      have heq : libBorrow w L mid bid = memberBorrowBook w mRef bRef := by
        simp [libBorrow, hm, hb]
      rw [heq] at h ⊢
      rcases memberBorrowBook_spec w mRef bRef with hcase | ⟨_, _, hcase⟩
      · rw [hcase]
      · rw [hcase] at h
        cases h

theorem libReturnBook_false_unchanged (w : World) (L : Nat) (mid bid : Int)
    (h : (libReturnBook w L mid bid).2 = false) : (libReturnBook w L mid bid).1 = w := by
  cases hm : getMemberRef w L mid with
  | none => simp [libReturnBook, hm]
  | some mRef =>
    have heq : libReturnBook w L mid bid = memberReturnBook w mRef bid := by
      simp [libReturnBook, hm]
    rw [heq] at h ⊢
    rcases memberReturnBook_spec w mRef bid with ⟨_, hcase⟩ | ⟨r, _, hcase⟩
    · rw [hcase]
    · rw [hcase] at h
      cases h

theorem removeBook_heap (w : World) (L : Nat) (bid : Int) :
    (removeBook w L bid).1.heap = w.heap := by
  cases hf : (w.libAt L).books.find?
      (fun r => (w.bookAt r).book_id == bid && (w.bookAt r).is_available) with
  | none => simp [removeBook, hf]
  | some r => simp [removeBook, hf, World.setLibAt]

theorem removeBook_mems (w : World) (L : Nat) (bid : Int) :
    (removeBook w L bid).1.mems = w.mems := by
  cases hf : (w.libAt L).books.find?
      (fun r => (w.bookAt r).book_id == bid && (w.bookAt r).is_available) with
  | none => simp [removeBook, hf]
  | some r => simp [removeBook, hf, World.setLibAt]

/-- C6: across any single catalog operation on any world, a book's
availability flips from true to false only as part of a successful `borrow`,
flips from false to true only as part of a successful `return_book`, and a
book that `remove_book` takes out of the collection was available at that
moment. -/
theorem claim_C6_availability_transitions (w : World) (op : CatOp) (r : Nat)
    (hr : r < w.heap.length) :
    ((w.bookAt r).is_available = true →
      ((applyOp w op).bookAt r).is_available = false →
      ∃ mid bid, op = CatOp.borrow mid bid ∧ (libBorrow w 0 mid bid).2 = true) ∧
    ((w.bookAt r).is_available = false →
      ((applyOp w op).bookAt r).is_available = true →
      ∃ mid bid, op = CatOp.returnBook mid bid ∧
        (libReturnBook w 0 mid bid).2 = true) ∧
    (∀ bid, op = CatOp.removeBook bid → r ∈ (w.libAt 0).books →
      r ∉ ((applyOp w op).libAt 0).books → (w.bookAt r).is_available = true) := by
  cases op with
  | addBook t a i =>
    have hb : (applyOp w (CatOp.addBook t a i)).bookAt r = w.bookAt r := by
      simp only [applyOp, World.bookAt, addBook_heap]
      exact getD_append_lt _ _ _ hr _
    refine ⟨?_, ?_, ?_⟩
    · intro h1 h2
      rw [hb, h1] at h2
      cases h2
    · intro h1 h2
      rw [hb, h1] at h2
      cases h2
    · intro bid hop
      cases hop
  | addMember n i ρ =>
    have hb : (applyOp w (CatOp.addMember n i ρ)).bookAt r = w.bookAt r := rfl
    refine ⟨?_, ?_, ?_⟩
    · intro h1 h2
      rw [hb, h1] at h2
      cases h2
    · intro h1 h2
      rw [hb, h1] at h2
      cases h2
    · intro bid hop
      cases hop
  | borrow mid bid =>
    refine ⟨?_, ?_, ?_⟩
    · intro h1 h2
      refine ⟨mid, bid, rfl, ?_⟩
      by_contra hfail
      have hfalse : (libBorrow w 0 mid bid).2 = false :=
        Bool.eq_false_iff.mpr hfail
      have hunch := libBorrow_false_unchanged w 0 mid bid hfalse
      simp only [applyOp] at h2
      rw [hunch, h1] at h2
      cases h2
    · intro h1 h2
      exfalso
      simp only [applyOp] at h2
      cases hbool : (libBorrow w 0 mid bid).2 with
      | false =>
        rw [libBorrow_false_unchanged w 0 mid bid hbool, h1] at h2
        cases h2
      | true =>
        cases hm : getMemberRef w 0 mid with
        | none =>
          rw [show (libBorrow w 0 mid bid).1 = w by simp [libBorrow, hm], h1] at h2
          cases h2
        | some mRef =>
          cases hfb : findBookRef w 0 bid with
          | none =>
            rw [show (libBorrow w 0 mid bid).1 = w by simp [libBorrow, hm, hfb],
              h1] at h2
            cases h2
          | some bRef =>
            have heq : libBorrow w 0 mid bid = memberBorrowBook w mRef bRef := by
              simp [libBorrow, hm, hfb]
            rcases memberBorrowBook_spec w mRef bRef with hcase | ⟨_, _, hcase⟩
            · rw [heq, hcase] at h2
              rw [h1] at h2
              cases h2
            · rw [heq, hcase] at h2
              by_cases hx : r = bRef
              · subst hx
                have : (borrowedWorld w mRef r).bookAt r =
                    { w.bookAt r with is_available := false } := by
                  simp only [World.bookAt, borrowedWorld_heap]
                  exact getD_set_eq _ _ _ _ hr
                rw [this] at h2
                cases h2
              · have : (borrowedWorld w mRef bRef).bookAt r = w.bookAt r := by
                  simp only [World.bookAt, borrowedWorld_heap]
                  exact getD_set_ne _ _ _ _ _ hx
                rw [this, h1] at h2
                cases h2
    · intro bid2 hop
      cases hop
  | returnBook mid bid =>
    refine ⟨?_, ?_, ?_⟩
    · intro h1 h2
      exfalso
      simp only [applyOp] at h2
      cases hbool : (libReturnBook w 0 mid bid).2 with
      | false =>
        rw [libReturnBook_false_unchanged w 0 mid bid hbool, h1] at h2
        cases h2
      | true =>
        cases hm : getMemberRef w 0 mid with
        | none =>
          rw [show (libReturnBook w 0 mid bid).1 = w by simp [libReturnBook, hm],
            h1] at h2
          cases h2
        | some mRef =>
          have heq : libReturnBook w 0 mid bid = memberReturnBook w mRef bid := by
            simp [libReturnBook, hm]
          rcases memberReturnBook_spec w mRef bid with ⟨_, hcase⟩ | ⟨r0, _, hcase⟩
          · rw [heq, hcase] at h2
            rw [h1] at h2
            cases h2
          · rw [heq, hcase] at h2
            by_cases hx : r = r0
            · subst hx
              by_cases hrl : r < w.heap.length
              · have : ((w.setBookAt r { w.bookAt r with is_available := true }).setMemAt
                    mRef
                    { w.memAt mRef with
                        borrowed_books :=
                          (w.memAt mRef).borrowed_books.erase r }).bookAt r =
                    { w.bookAt r with is_available := true } := by
                  simp only [World.bookAt, World.setMemAt, World.setBookAt]
                  exact getD_set_eq _ _ _ _ hrl
                rw [this] at h2
                simp at h2
              · exact hrl hr
            · have : ((w.setBookAt r0 { w.bookAt r0 with is_available := true }).setMemAt
                  mRef
                  { w.memAt mRef with
                      borrowed_books :=
                        (w.memAt mRef).borrowed_books.erase r0 }).bookAt r =
                  w.bookAt r := by
                simp only [World.bookAt, World.setMemAt, World.setBookAt]
                exact getD_set_ne _ _ _ _ _ hx
              rw [this, h1] at h2
              cases h2
    · intro h1 h2
      refine ⟨mid, bid, rfl, ?_⟩
      by_contra hfail
      have hfalse : (libReturnBook w 0 mid bid).2 = false :=
        Bool.eq_false_iff.mpr hfail
      have hunch := libReturnBook_false_unchanged w 0 mid bid hfalse
      simp only [applyOp] at h2
      rw [hunch, h1] at h2
      cases h2
    · intro bid2 hop
      cases hop
  | removeBook bid0 =>
    have hbook : (applyOp w (CatOp.removeBook bid0)).bookAt r = w.bookAt r := by
      simp only [applyOp, World.bookAt]
      rw [removeBook_heap]
    refine ⟨?_, ?_, ?_⟩
    · intro h1 h2
      rw [hbook, h1] at h2
      cases h2
    · intro h1 h2
      rw [hbook, h1] at h2
      cases h2
    · intro bid1 hop hin hout
      injection hop with hbid
      subst hbid
      cases hf : (w.libAt 0).books.find?
          (fun x => (w.bookAt x).book_id == bid0 && (w.bookAt x).is_available) with
      | none =>
        exfalso
        have : (applyOp w (CatOp.removeBook bid0)).libAt 0 = w.libAt 0 := by
          simp [applyOp, removeBook, hf]
        rw [this] at hout
        exact hout hin
      | some r0 =>
        have h0 : 0 < w.libs.length := by
          by_contra hnot
          have hdum : w.libAt 0 = dummyLibrary :=
            getD_ge_length _ _ _ (Nat.le_of_not_lt hnot)
          rw [hdum] at hin
          simp [dummyLibrary] at hin
        have hlib : (applyOp w (CatOp.removeBook bid0)).libAt 0 =
            { w.libAt 0 with books := (w.libAt 0).books.erase r0 } := by
          have : (applyOp w (CatOp.removeBook bid0)) =
              w.setLibAt 0 { w.libAt 0 with books := (w.libAt 0).books.erase r0 } := by
            simp [applyOp, removeBook, hf]
          rw [this]
          exact libAt_setLibAt_eq w 0 _ h0
        rw [hlib] at hout
        simp only [] at hout
        have hrr : r = r0 := by
          by_contra hne
          exact hout ((List.mem_erase_of_ne hne).mpr hin)
        subst hrr
        have hpred := List.find?_some hf
        simp only [Bool.and_eq_true] at hpred
        exact hpred.2

/-- Witness for C6: with one book and an `addBook` operation on `wOne`, all
three transition clauses hold at book reference 0. -/
theorem claim_C6_availability_transitions_witness :
    ((wOne.bookAt 0).is_available = true →
      ((applyOp wOne (CatOp.addBook "N" "B" 7)).bookAt 0).is_available = false →
      ∃ mid bid, CatOp.addBook "N" "B" 7 = CatOp.borrow mid bid ∧
        (libBorrow wOne 0 mid bid).2 = true) ∧
    ((wOne.bookAt 0).is_available = false →
      ((applyOp wOne (CatOp.addBook "N" "B" 7)).bookAt 0).is_available = true →
      ∃ mid bid, CatOp.addBook "N" "B" 7 = CatOp.returnBook mid bid ∧
        (libReturnBook wOne 0 mid bid).2 = true) ∧
    (∀ bid, CatOp.addBook "N" "B" 7 = CatOp.removeBook bid →
      0 ∈ (wOne.libAt 0).books →
      0 ∉ ((applyOp wOne (CatOp.addBook "N" "B" 7)).libAt 0).books →
      (wOne.bookAt 0).is_available = true) :=
  claim_C6_availability_transitions wOne (CatOp.addBook "N" "B" 7) 0 (by decide)

/-- C7: `Library.borrow` fails, leaving the world unchanged, when no member
carries the requested member id or no book carries the requested book id;
when both resolve, it returns exactly the result of delegating
`borrow_book` to the first matching member on the first matching book. -/
theorem claim_C7_borrow_resolution (w : World) (L : Nat) (mid bid : Int) :
    ((∀ mRef ∈ (w.libAt L).members, (w.memAt mRef).member_id ≠ mid) →
      libBorrow w L mid bid = (w, false)) ∧
    (∀ mRef, getMemberRef w L mid = some mRef →
      (∀ r ∈ (w.libAt L).books, (w.bookAt r).book_id ≠ bid) →
      libBorrow w L mid bid = (w, false)) ∧
    (∀ mRef bRef, getMemberRef w L mid = some mRef →
      findBookRef w L bid = some bRef →
      libBorrow w L mid bid = memberBorrowBook w mRef bRef) := by
  refine ⟨?_, ?_, ?_⟩
  · intro habs
    have hm : getMemberRef w L mid = none := by
      refine List.find?_eq_none.mpr ?_
      intro x hx
      simp only [Bool.not_eq_true]
      exact beq_eq_false_iff_ne.mpr (habs x hx)
    simp [libBorrow, hm]
  · intro mRef hm habs
    have hb : findBookRef w L bid = none := by
      refine List.find?_eq_none.mpr ?_
      intro x hx
      simp only [Bool.not_eq_true]
      exact beq_eq_false_iff_ne.mpr (habs x hx)
    simp [libBorrow, hm, hb]
  · intro mRef bRef hm hb
    simp [libBorrow, hm, hb]

/-- Witness for C7: borrowing with an absent member id in `wOne` fails and
leaves the world unchanged. -/
theorem claim_C7_borrow_resolution_witness :
    libBorrow wOne 0 99 101 = (wOne, false) :=
  (claim_C7_borrow_resolution wOne 0 99 101).1 (by decide)

/-- C8: the lookup operations report absence by returning the empty
optional — `find_book` returns `none` exactly when no book of the catalog
carries the id, and `get_member_by_id` returns `none` exactly when no member
does (every domain operation is a total function returning its outcome, so
no fault is ever raised). -/
theorem claim_C8_lookup_absent_returns_none (w : World) (L : Nat) (i : Int) :
    (findBookRef w L i = none ↔
      ∀ r ∈ (w.libAt L).books, (w.bookAt r).book_id ≠ i) ∧
    (getMemberRef w L i = none ↔
      ∀ m ∈ (w.libAt L).members, (w.memAt m).member_id ≠ i) := by
  constructor
  · constructor
    · intro h r hr
      have := List.find?_eq_none.mp h r hr
      simpa using this
    · intro h
      refine List.find?_eq_none.mpr ?_
      intro x hx
      simp only [Bool.not_eq_true]
      exact beq_eq_false_iff_ne.mpr (h x hx)
  · constructor
    · intro h m hm
      have := List.find?_eq_none.mp h m hm
      simpa using this
    · intro h
      refine List.find?_eq_none.mpr ?_
      intro x hx
      simp only [Bool.not_eq_true]
      exact beq_eq_false_iff_ne.mpr (h x hx)

end LibMS
